import Mathlib

/-!
Verification development for the chainerx native elementwise copy/cast core
(`chainerx_cc/chainerx/native/native_device/copy.cc`).

The source file contains the `CopyOp` kernel (`out = x`), the `NativeAsTypeOp`
cast operation (`out = static_cast<OutT>(a)` under a nested `VisitDtype`
dispatch, after `CheckDevicesCompatible`), and the registration glue.  The
dtype set, the `VisitDtype` dispatcher, the `Elementwise` iteration engine and
the device-compatibility check live outside the given source tree; they are
modelled here from the specification, as marked on each such definition.
-/

namespace Chainer

/-- Modelled from the spec: the closed set of element dtypes
(`chainerx/dtype.h` is not part of the given sources).  The spec requires
"signed/unsigned integers of multiple widths, floating-point of multiple
widths, boolean"; this is the chainerx set. -/
inductive Dtype where
  | bool
  | int8
  | int16
  | int32
  | int64
  | uint8
  | float16
  | float32
  | float64
  deriving DecidableEq, Repr

/-- Modelled from the spec: runtime element values.  Machine integers are
unbounded `Int` with explicit wrapping where conversions overflow; floating
point values are idealized as exact rationals plus `nan` and signed
infinities (rounding of values not exactly representable is outside the
model). -/
inductive Val where
  | b (x : Bool)
  | i (x : Int)
  | f (x : ℚ)
  | nan
  | inf (neg : Bool)
  deriving DecidableEq, Repr

/-- Bit width of the integer dtypes (0 for non-integer dtypes). -/
def Dtype.width : Dtype → Nat
  | .int8 => 8
  | .int16 => 16
  | .int32 => 32
  | .int64 => 64
  | .uint8 => 8
  | _ => 0

/-- Truncation toward zero of a rational, the C++ float-to-int conversion
rule for in-range values. -/
def ratTrunc (q : ℚ) : Int :=
  if 0 ≤ q then Int.floor q else -Int.floor (-q)

/-- Numeric content of a value read as an integer (float content truncated
toward zero).  `nan` and infinities have no defined integer conversion in
C++ (undefined behavior); the model pins them to 0, which no claim relies
on. -/
def valToInt : Val → Int
  | .b x => if x then 1 else 0
  | .i n => n
  | .f q => ratTrunc q
  | .nan => 0
  | .inf _ => 0

/-- Two's-complement wrap of an integer into the signed `w`-bit range, the
effect of a narrowing integer conversion in the host language. -/
def wrapSigned (w : Nat) (x : Int) : Int :=
  if x % (2 ^ w : Int) < 2 ^ (w - 1) then x % (2 ^ w : Int)
  else x % (2 ^ w : Int) - 2 ^ w

/-- Wrap of an integer into the unsigned `w`-bit range. -/
def wrapUnsigned (w : Nat) (x : Int) : Int :=
  x % (2 ^ w : Int)

/-- Conversion to `bool` per the host language: nonzero (including `nan`
and infinities) maps to `true`. -/
def castToBool : Val → Val
  | .b x => .b x
  | .i n => .b (n ≠ 0)
  | .f q => .b (q ≠ 0)
  | .nan => .b true
  | .inf _ => .b true

/-- Conversion to a floating dtype.  In the exact-rational model the
numeric content is preserved; `nan` and infinities are preserved. -/
def castToFloat : Val → Val
  | .b x => .f (if x then 1 else 0)
  | .i n => .f (n : ℚ)
  | .f q => .f q
  | .nan => .nan
  | .inf s => .inf s

/-- Modelled from the spec: the host language's native value conversion
(`static_cast<OutT>`), as delegated to by the cast kernel: boolean
conversion tests nonzero, integer narrowing wraps, float-to-int truncates
toward zero, no custom rounding or saturation. -/
def staticCast (tgt : Dtype) (v : Val) : Val :=
  match tgt with
  | .bool => castToBool v
  | .int8 => .i (wrapSigned 8 (valToInt v))
  | .int16 => .i (wrapSigned 16 (valToInt v))
  | .int32 => .i (wrapSigned 32 (valToInt v))
  | .int64 => .i (wrapSigned 64 (valToInt v))
  | .uint8 => .i (wrapUnsigned 8 (valToInt v))
  | .float16 => castToFloat v
  | .float32 => castToFloat v
  | .float64 => castToFloat v

/-- A value is a well-typed inhabitant of a dtype: the shape a typed buffer
element of that dtype can decode to. -/
def fits : Dtype → Val → Bool
  | .bool, .b _ => true
  | .int8, .i n => decide (-(2 ^ 7 : Int) ≤ n ∧ n < 2 ^ 7)
  | .int16, .i n => decide (-(2 ^ 15 : Int) ≤ n ∧ n < 2 ^ 15)
  | .int32, .i n => decide (-(2 ^ 31 : Int) ≤ n ∧ n < 2 ^ 31)
  | .int64, .i n => decide (-(2 ^ 63 : Int) ≤ n ∧ n < 2 ^ 63)
  | .uint8, .i n => decide ((0 : Int) ≤ n ∧ n < 2 ^ 8)
  | .float16, .f _ => true
  | .float16, .nan => true
  | .float16, .inf _ => true
  | .float32, .f _ => true
  | .float32, .nan => true
  | .float32, .inf _ => true
  | .float64, .f _ => true
  | .float64, .nan => true
  | .float64, .inf _ => true
  | _, _ => false

/-- A value of some source dtype is losslessly representable in the target
dtype: converting to the target loses no information, so converting back
recovers it.  Integral targets require integral content in range; `bool`
requires content 0 or 1; floating targets are lossless in the
exact-rational model. -/
def losslessIn : Dtype → Val → Bool
  | .bool, .b _ => true
  | .bool, .i n => decide (n = 0 ∨ n = 1)
  | .bool, .f q => decide (q = 0 ∨ q = 1)
  | .bool, _ => false
  | .int8, v => intLossless 7 v
  | .int16, v => intLossless 15 v
  | .int32, v => intLossless 31 v
  | .int64, v => intLossless 63 v
  | .uint8, .b _ => true
  | .uint8, .i n => decide ((0 : Int) ≤ n ∧ n < 2 ^ 8)
  | .uint8, .f q => decide (q.den = 1 ∧ (0 : Int) ≤ q.num ∧ q.num < 2 ^ 8)
  | .uint8, _ => false
  | .float16, _ => true
  | .float32, _ => true
  | .float64, _ => true
where
  /-- Content is an integer in the signed range with `k` value bits. -/
  intLossless (k : Nat) : Val → Bool
  | .b _ => true
  | .i n => decide (-(2 ^ k : Int) ≤ n ∧ n < 2 ^ k)
  | .f q => decide (q.den = 1 ∧ -(2 ^ k : Int) ≤ q.num ∧ q.num < 2 ^ k)
  | _ => false

theorem ratTrunc_intCast (n : Int) : ratTrunc (n : ℚ) = n := by
  unfold ratTrunc
  by_cases h : (0 : ℚ) ≤ (n : ℚ)
  · rw [if_pos h, Int.floor_intCast]
  · rw [if_neg h]
    have e : -(n : ℚ) = ((-n : Int) : ℚ) := by push_cast; ring
    rw [e, Int.floor_intCast, neg_neg]

theorem wrapSigned_eq_self (k : Nat) (x : Int)
    (h1 : -(2 ^ k) ≤ x) (h2 : x < 2 ^ k) : wrapSigned (k + 1) x = x := by
  unfold wrapSigned
  have hpow : (2 : Int) ^ (k + 1) = 2 ^ k + 2 ^ k := by ring
  have hk : (0 : Int) < 2 ^ k := by positivity
  simp only [Nat.add_sub_cancel]
  rcases le_or_lt 0 x with hx | hx
  · have hmod : x % (2 ^ (k + 1) : Int) = x := Int.emod_eq_of_lt hx (by omega)
    rw [hmod, if_pos h2]
  · have key : (x + 2 ^ (k + 1) * 1) % (2 ^ (k + 1) : Int) = x % 2 ^ (k + 1) :=
      Int.add_mul_emod_self_left x (2 ^ (k + 1)) 1
    rw [mul_one] at key
    have hmod : x % (2 ^ (k + 1) : Int) = x + 2 ^ (k + 1) := by
      rw [← key]
      exact Int.emod_eq_of_lt (by omega) (by omega)
    rw [hmod, if_neg (by omega)]
    omega

theorem wrapUnsigned_eq_self (w : Nat) (x : Int)
    (h1 : 0 ≤ x) (h2 : x < 2 ^ w) : wrapUnsigned w x = x :=
  Int.emod_eq_of_lt h1 h2

theorem ratTrunc_den_one (q : ℚ) (h : q.den = 1) : ratTrunc q = q.num := by
  have hq : (q.num : ℚ) = q := (Rat.den_eq_one_iff q).mp h
  conv_lhs => rw [← hq]
  exact ratTrunc_intCast q.num

/-- Casting a well-typed value to its own dtype is the identity: the native
conversion at the same type changes nothing. -/
theorem fits_staticCast_self (d : Dtype) (v : Val) (h : fits d v = true) :
    staticCast d v = v := by
  cases d <;> cases v <;> simp only [fits, decide_eq_true_eq] at h <;>
    first
      | exact Bool.noConfusion h
      | rfl
      | exact congrArg Val.i (wrapSigned_eq_self 7 _ h.1 h.2)
      | exact congrArg Val.i (wrapSigned_eq_self 15 _ h.1 h.2)
      | exact congrArg Val.i (wrapSigned_eq_self 31 _ h.1 h.2)
      | exact congrArg Val.i (wrapSigned_eq_self 63 _ h.1 h.2)
      | exact congrArg Val.i (wrapUnsigned_eq_self 8 _ h.1 h.2)

/-- Casting the integer content of a finite, integral, well-typed value
back to its dtype recovers the value. -/
theorem staticCast_of_valToInt (dIn : Dtype) (v : Val) (hf : fits dIn v = true)
    (hden : ∀ q, v = .f q → q.den = 1)
    (hnan : v ≠ .nan) (hinf : ∀ s, v ≠ .inf s) :
    staticCast dIn (.i (valToInt v)) = v := by
  cases dIn <;> cases v <;> simp only [fits, decide_eq_true_eq] at hf <;>
    first
      | exact Bool.noConfusion hf
      | exact absurd rfl hnan
      | skip
  case bool.b x => cases x <;> rfl
  case int8.i n => exact congrArg Val.i (wrapSigned_eq_self 7 _ hf.1 hf.2)
  case int16.i n => exact congrArg Val.i (wrapSigned_eq_self 15 _ hf.1 hf.2)
  case int32.i n => exact congrArg Val.i (wrapSigned_eq_self 31 _ hf.1 hf.2)
  case int64.i n => exact congrArg Val.i (wrapSigned_eq_self 63 _ hf.1 hf.2)
  case uint8.i n => exact congrArg Val.i (wrapUnsigned_eq_self 8 _ hf.1 hf.2)
  all_goals
    first
      | (rename_i s; exact absurd rfl (hinf s))
      | (rename_i q
         have hd : q.den = 1 := hden q rfl
         have hq : (q.num : ℚ) = q := (Rat.den_eq_one_iff q).mp hd
         simp only [staticCast, valToInt, castToFloat, ratTrunc_den_one q hd, hq])

/-- The integer content of a value satisfying `intLossless k` lies in the
signed range with `k` value bits (for `k ≥ 1`). -/
theorem intLossless_bounds (k : Nat) (v : Val) (hk : 1 ≤ k)
    (h : losslessIn.intLossless k v = true) :
    -(2 ^ k : Int) ≤ valToInt v ∧ valToInt v < 2 ^ k := by
  have h2 : (2 : Int) ≤ 2 ^ k := by
    calc (2 : Int) = 2 ^ 1 := by ring
    _ ≤ 2 ^ k := by
        apply pow_le_pow_right₀
        · omega
        · exact hk
  cases v <;> simp only [losslessIn.intLossless, decide_eq_true_eq] at h
  case nan => exact Bool.noConfusion h
  case inf s => exact Bool.noConfusion h
  case b x => cases x <;> (simp only [valToInt]; omega)
  case i n => exact ⟨h.1, h.2⟩
  case f q =>
    simp only [valToInt, ratTrunc_den_one q h.1]
    exact ⟨h.2.1, h.2.2⟩

theorem intLossless_den (k : Nat) (q : ℚ)
    (h : losslessIn.intLossless k (.f q) = true) : q.den = 1 := by
  simp only [losslessIn.intLossless, decide_eq_true_eq] at h
  exact h.1

theorem uintLossless_bounds (v : Val) (h : losslessIn .uint8 v = true) :
    0 ≤ valToInt v ∧ valToInt v < 2 ^ 8 := by
  cases v <;> simp only [losslessIn, decide_eq_true_eq] at h
  case nan => exact Bool.noConfusion h
  case inf s => exact Bool.noConfusion h
  case b x => cases x <;> simp [valToInt]
  case i n => exact ⟨h.1, h.2⟩
  case f q =>
    simp only [valToInt, ratTrunc_den_one q h.1]
    exact ⟨h.2.1, h.2.2⟩

/-- Round trip through a floating target: in the exact-rational model a
cast to a floating dtype is faithful, so casting back to the (well-typed)
source dtype recovers the value. -/
theorem roundtrip_float_target (dIn : Dtype) (v : Val) (hf : fits dIn v = true) :
    staticCast dIn (castToFloat v) = v := by
  cases v
  case b x =>
    cases dIn <;> simp only [fits] at hf <;>
      first | exact Bool.noConfusion hf | skip
    cases x <;> simp [staticCast, castToFloat, castToBool]
  case i n =>
    have e : valToInt (castToFloat (.i n)) = n := by
      simp [castToFloat, valToInt, ratTrunc_intCast]
    cases dIn <;> simp only [fits, decide_eq_true_eq] at hf <;>
      first | exact Bool.noConfusion hf | skip
    case int8 =>
      show Val.i (wrapSigned 8 (valToInt (castToFloat (.i n)))) = Val.i n
      rw [e]; exact congrArg Val.i (wrapSigned_eq_self 7 _ hf.1 hf.2)
    case int16 =>
      show Val.i (wrapSigned 16 (valToInt (castToFloat (.i n)))) = Val.i n
      rw [e]; exact congrArg Val.i (wrapSigned_eq_self 15 _ hf.1 hf.2)
    case int32 =>
      show Val.i (wrapSigned 32 (valToInt (castToFloat (.i n)))) = Val.i n
      rw [e]; exact congrArg Val.i (wrapSigned_eq_self 31 _ hf.1 hf.2)
    case int64 =>
      show Val.i (wrapSigned 64 (valToInt (castToFloat (.i n)))) = Val.i n
      rw [e]; exact congrArg Val.i (wrapSigned_eq_self 63 _ hf.1 hf.2)
    case uint8 =>
      show Val.i (wrapUnsigned 8 (valToInt (castToFloat (.i n)))) = Val.i n
      rw [e]; exact congrArg Val.i (wrapUnsigned_eq_self 8 _ hf.1 hf.2)
  case f q =>
    cases dIn <;> simp only [fits] at hf <;>
      first | exact Bool.noConfusion hf | rfl
  case nan =>
    cases dIn <;> simp only [fits] at hf <;>
      first | exact Bool.noConfusion hf | rfl
  case inf s =>
    cases dIn <;> simp only [fits] at hf <;>
      first | exact Bool.noConfusion hf | rfl

/-- Lossless round trip at the value level: a value well typed at `dIn` and
losslessly representable in `dOut` is recovered by casting to `dOut` and
back, with the native conversion semantics on both legs. -/
theorem lossless_roundtrip (dIn dOut : Dtype) (v : Val)
    (hf : fits dIn v = true) (hl : losslessIn dOut v = true) :
    staticCast dIn (staticCast dOut v) = v := by
  cases dOut
  case int8 =>
    have hl' : losslessIn.intLossless 7 v = true := hl
    have hb := intLossless_bounds 7 v (by omega) hl'
    have e : staticCast .int8 v = .i (valToInt v) :=
      congrArg Val.i (wrapSigned_eq_self 7 _ hb.1 hb.2)
    rw [e]
    refine staticCast_of_valToInt dIn v hf ?_ ?_ ?_
    · intro q hq; exact intLossless_den 7 q (hq ▸ hl')
    · intro h; rw [h] at hl'; exact Bool.noConfusion hl'
    · intro s h; rw [h] at hl'; exact Bool.noConfusion hl'
  case int16 =>
    have hl' : losslessIn.intLossless 15 v = true := hl
    have hb := intLossless_bounds 15 v (by omega) hl'
    have e : staticCast .int16 v = .i (valToInt v) :=
      congrArg Val.i (wrapSigned_eq_self 15 _ hb.1 hb.2)
    rw [e]
    refine staticCast_of_valToInt dIn v hf ?_ ?_ ?_
    · intro q hq; exact intLossless_den 15 q (hq ▸ hl')
    · intro h; rw [h] at hl'; exact Bool.noConfusion hl'
    · intro s h; rw [h] at hl'; exact Bool.noConfusion hl'
  case int32 =>
    have hl' : losslessIn.intLossless 31 v = true := hl
    have hb := intLossless_bounds 31 v (by omega) hl'
    have e : staticCast .int32 v = .i (valToInt v) :=
      congrArg Val.i (wrapSigned_eq_self 31 _ hb.1 hb.2)
    rw [e]
    refine staticCast_of_valToInt dIn v hf ?_ ?_ ?_
    · intro q hq; exact intLossless_den 31 q (hq ▸ hl')
    · intro h; rw [h] at hl'; exact Bool.noConfusion hl'
    · intro s h; rw [h] at hl'; exact Bool.noConfusion hl'
  case int64 =>
    have hl' : losslessIn.intLossless 63 v = true := hl
    have hb := intLossless_bounds 63 v (by omega) hl'
    have e : staticCast .int64 v = .i (valToInt v) :=
      congrArg Val.i (wrapSigned_eq_self 63 _ hb.1 hb.2)
    rw [e]
    refine staticCast_of_valToInt dIn v hf ?_ ?_ ?_
    · intro q hq; exact intLossless_den 63 q (hq ▸ hl')
    · intro h; rw [h] at hl'; exact Bool.noConfusion hl'
    · intro s h; rw [h] at hl'; exact Bool.noConfusion hl'
  case uint8 =>
    have hb := uintLossless_bounds v hl
    have e : staticCast .uint8 v = .i (valToInt v) :=
      congrArg Val.i (wrapUnsigned_eq_self 8 _ hb.1 hb.2)
    rw [e]
    refine staticCast_of_valToInt dIn v hf ?_ ?_ ?_
    · intro q hq; rw [hq] at hl
      simp only [losslessIn, decide_eq_true_eq] at hl; exact hl.1
    · intro h; rw [h] at hl; exact Bool.noConfusion hl
    · intro s h; rw [h] at hl; exact Bool.noConfusion hl
  case bool =>
    cases v
    case b x =>
      cases dIn <;> simp only [fits] at hf <;>
        first | exact Bool.noConfusion hf | skip
      cases x <;> rfl
    case i n =>
      have hn : n = 0 ∨ n = 1 := by
        simpa only [losslessIn, decide_eq_true_eq] using hl
      cases dIn <;> simp only [fits, decide_eq_true_eq] at hf <;>
        first | exact Bool.noConfusion hf | skip
      all_goals rcases hn with h | h <;> subst h <;> decide
    case f q =>
      have hq : q = 0 ∨ q = 1 := by
        simpa only [losslessIn, decide_eq_true_eq] using hl
      cases dIn <;> simp only [fits] at hf <;>
        first | exact Bool.noConfusion hf | skip
      all_goals rcases hq with h | h <;> subst h <;>
        simp [staticCast, castToBool, castToFloat]
    case nan => exact absurd hl (by simp [losslessIn])
    case inf s => exact absurd hl (by simp [losslessIn])
  case float16 => exact roundtrip_float_target dIn v hf
  case float32 => exact roundtrip_float_target dIn v hf
  case float64 => exact roundtrip_float_target dIn v hf

/-! ### Shapes, strides and row-major linear indexing

Modelled from the spec (the indexer and `Elementwise` engine of
`chainerx/native/elementwise.h` and `chainerx/indexer.h` are not part of
the given sources): shapes are dimension-size lists, strides are
per-dimension element offsets, and a linear index is decomposed row-major
(last dimension fastest) against the iteration shape. -/

/-- Total element count of a shape. -/
def totalSize (sh : List Nat) : Nat := sh.prod

/-- Row-major decomposition of a linear index `i` into a coordinate for
shape `sh` (last dimension fastest). -/
def unravel : List Nat → Nat → List Nat
  | [], _ => []
  | _ :: ds, i => (i / totalSize ds) :: unravel ds (i % totalSize ds)

/-- Row-major recomposition of a coordinate into a linear index. -/
def ravel : List Nat → List Nat → Nat
  | _ :: ds, x :: xs => x * totalSize ds + ravel ds xs
  | _, _ => 0

/-- A coordinate is valid for a shape when it has the same rank and is
elementwise strictly below the dimension sizes. -/
def validCoord (sh c : List Nat) : Prop := List.Forall₂ (fun x d => x < d) c sh

instance (sh c : List Nat) : Decidable (validCoord sh c) :=
  inferInstanceAs (Decidable (List.Forall₂ _ _ _))

/-- Physical element offset of a coordinate through a shape and strides,
realizing broadcasting: a size-1 dimension always contributes index 0. -/
def physOffset : List Nat → List Int → List Nat → Int
  | d :: ds, s :: ss, x :: xs =>
      (if d = 1 then 0 else (x : Int)) * s + physOffset ds ss xs
  | _, _, _ => 0

/-- Left-pad a list to length `n` with copies of `x` (standard broadcast
alignment of shorter shapes). -/
def padL (n : Nat) (x : α) (l : List α) : List α :=
  List.replicate (n - l.length) x ++ l

/-- Contiguous (C-order) strides for a shape, as used for freshly
allocated outputs. -/
def contiguousStrides : List Nat → List Int
  | [] => []
  | _ :: ds => (totalSize ds : Int) :: contiguousStrides ds

theorem unravel_valid (sh : List Nat) (i : Nat) (h : i < totalSize sh) :
    validCoord sh (unravel sh i) := by
  induction sh generalizing i with
  | nil => exact List.Forall₂.nil
  | cons d ds ih =>
      have hP : 0 < totalSize ds := by
        rcases Nat.eq_zero_or_pos (totalSize ds) with h0 | h0
        · exfalso
          rw [totalSize, List.prod_cons] at h
          rw [totalSize] at h0
          rw [h0, Nat.mul_zero] at h
          omega
        · exact h0
      refine List.Forall₂.cons ?_ (ih _ (Nat.mod_lt _ hP))
      have hlt : i < totalSize ds * d := by
        rw [Nat.mul_comm, totalSize, ← List.prod_cons]
        exact h
      exact Nat.div_lt_of_lt_mul hlt

theorem ravel_unravel (sh : List Nat) (i : Nat) (h : i < totalSize sh) :
    ravel sh (unravel sh i) = i := by
  induction sh generalizing i with
  | nil =>
      simp only [totalSize, List.prod_nil] at h
      have h0 : i = 0 := by omega
      subst h0
      rfl
  | cons d ds ih =>
      have hP : 0 < totalSize ds := by
        rcases Nat.eq_zero_or_pos (totalSize ds) with h0 | h0
        · exfalso
          rw [totalSize, List.prod_cons] at h
          rw [totalSize] at h0
          rw [h0, Nat.mul_zero] at h
          omega
        · exact h0
      simp only [unravel, ravel]
      rw [ih _ (Nat.mod_lt _ hP)]
      have hdm := Nat.div_add_mod i (totalSize ds)
      rw [Nat.mul_comm] at hdm
      exact hdm

theorem ravel_lt (sh c : List Nat) (h : validCoord sh c) :
    ravel sh c < totalSize sh := by
  induction h with
  | nil => simp [ravel, totalSize]
  | cons hx hrest ih =>
      rename_i x d c' ds
      simp only [ravel, totalSize, List.prod_cons]
      calc x * ds.prod + ravel ds c' < x * ds.prod + ds.prod := by
            have := ih
            rw [totalSize] at this
            omega
        _ = (x + 1) * ds.prod := by ring
        _ ≤ d * ds.prod := Nat.mul_le_mul_right _ (by omega)

theorem unravel_ravel (sh c : List Nat) (h : validCoord sh c) :
    unravel sh (ravel sh c) = c := by
  induction h with
  | nil => rfl
  | cons hx hrest ih =>
      rename_i x d c' ds
      have hlt : ravel ds c' < totalSize ds := ravel_lt ds c' hrest
      simp only [unravel, ravel]
      have hdiv : (x * totalSize ds + ravel ds c') / totalSize ds = x := by
        rw [Nat.mul_comm x (totalSize ds), Nat.mul_add_div (by omega),
          Nat.div_eq_of_lt hlt, Nat.add_zero]
      have hmod : (x * totalSize ds + ravel ds c') % totalSize ds = ravel ds c' := by
        rw [Nat.mul_comm x (totalSize ds), Nat.mul_add_mod, Nat.mod_eq_of_lt hlt]
      rw [hdiv, hmod, ih]

theorem ravel_inj (sh c1 c2 : List Nat) (h1 : validCoord sh c1)
    (h2 : validCoord sh c2) (h : ravel sh c1 = ravel sh c2) : c1 = c2 := by
  have := unravel_ravel sh c1 h1
  rw [← this, h, unravel_ravel sh c2 h2]

/-- For a valid coordinate, the contiguous-stride physical offset is the
row-major linear index. -/
theorem physOffset_contiguous (sh c : List Nat) (h : validCoord sh c) :
    physOffset sh (contiguousStrides sh) c = (ravel sh c : Int) := by
  induction h with
  | nil => simp [physOffset, contiguousStrides, ravel]
  | cons hx hrest ih =>
      rename_i x d c' ds
      simp only [physOffset, contiguousStrides, ravel]
      by_cases hd : d = 1
      · subst hd
        have hx0 : x = 0 := by omega
        subst hx0
        simp only [if_pos rfl, zero_mul, ih, totalSize]
        push_cast
        ring
      · simp only [if_neg hd, ih, totalSize]
        push_cast
        ring

/-! ### Arrays, the dtype visitor, and the elementwise engine -/

/-- Modelled from the spec: an array view — device, dtype tag, shape,
per-dimension element strides, base offset, and the backing buffer
(externally owned storage, read through element offsets). -/
structure Arr where
  device : Nat
  dtype : Dtype
  shape : List Nat
  strides : List Int
  offset : Int
  data : Int → Val

/-- Broadcast unification of two dimension sizes: equal, or one of them 1. -/
def broadcastDim (m n : Nat) : Option Nat :=
  if m = n then some m else if m = 1 then some n else if n = 1 then some m else none

/-- Dimensionwise broadcast unification of two equal-rank shapes. -/
def broadcastDims : List Nat → List Nat → Option (List Nat)
  | [], [] => some []
  | d :: ds, e :: es =>
      match broadcastDim d e, broadcastDims ds es with
      | some m, some ms => some (m :: ms)
      | _, _ => none
  | _, _ => none

/-- Modelled from the spec: the iteration shape — the elementwise maximum
of the participating shapes after left-padding the shorter one with size-1
dimensions; `none` when the shapes are not broadcast-compatible. -/
def broadcastShape (s t : List Nat) : Option (List Nat) :=
  broadcastDims (padL (max s.length t.length) 1 s) (padL (max s.length t.length) 1 t)

/-- Physical offset of an array element for iteration coordinate `c`: the
array is aligned to the rank-`r` iteration shape by left-padding, and each
coordinate is mapped through the array's own shape (size-1 dimensions read
index 0, realizing the broadcast) and dotted with its strides. -/
def elemIndex (x : Arr) (r : Nat) (c : List Nat) : Int :=
  x.offset + physOffset (padL r 1 x.shape) (padL r 0 x.strides) c

/-- Logical element of an array at a valid coordinate of its own shape. -/
def readAt (x : Arr) (c : List Nat) : Val :=
  x.data (elemIndex x x.shape.length c)

/-- One engine step at linear index `i`: the input offset read, the output
offset written, and the value the kernel writes there. -/
def ewStep (k : Nat → Val → Val) (a out : Arr) (ish : List Nat) (i : Nat) :
    Int × Int × Val :=
  let c := unravel ish i
  let ri := elemIndex a ish.length c
  (ri, elemIndex out ish.length c, k i (a.data ri))

/-- Modelled from the spec: the eager, synchronous element loop
(`for i in [start, start + n)`): each iteration applies the step and writes
its value at its output offset; the trace records every iteration as
(linear index, read offset, write offset, written value). -/
def ewLoop (step : Nat → Int × Int × Val) :
    Nat → Nat → (Int → Val) → List (Nat × Int × Int × Val) × (Int → Val)
  | _, 0, buf => ([], buf)
  | i, n + 1, buf =>
      let w := step i
      let rest := ewLoop step (i + 1) n (fun j => if j = w.2.1 then w.2.2 else buf j)
      ((i, w) :: rest.1, rest.2)

/-- Error taxonomy of the core: device incompatibility is a distinct, named
condition, separate from shape and dtype contract violations. -/
inductive EwErr where
  | deviceIncompat
  | shapeMismatch
  | dtypeMismatch
  deriving DecidableEq, Repr

/-- Modelled from the spec: `Elementwise` for one const input and one
output.  It computes the iteration shape — failing on non-broadcastable
shapes, and on a broadcast output, before any element is written — then
runs the eager loop over all linear indices in row-major order. -/
def Elementwise1 (k : Nat → Val → Val) (a out : Arr) :
    List (Nat × Int × Int × Val) × Except EwErr (Int → Val) :=
  match broadcastShape a.shape out.shape with
  | none => ([], .error .shapeMismatch)
  | some ish =>
      if padL ish.length 1 out.shape = ish then
        let r := ewLoop (ewStep k a out ish) 0 (totalSize ish) out.data
        (r.1, .ok r.2)
      else ([], .error .shapeMismatch)

/-- Modelled from the spec: the integer runtime codes of the dtype tags. -/
def dtypeCode : Dtype → Nat
  | .bool => 1
  | .int8 => 2
  | .int16 => 3
  | .int32 => 4
  | .int64 => 5
  | .uint8 => 6
  | .float16 => 7
  | .float32 => 8
  | .float64 => 9

/-- Inverse of `dtypeCode` on the closed set of tags. -/
def decodeDtype (c : Nat) : Option Dtype :=
  if c = 1 then some .bool
  else if c = 2 then some .int8
  else if c = 3 then some .int16
  else if c = 4 then some .int32
  else if c = 5 then some .int64
  else if c = 6 then some .uint8
  else if c = 7 then some .float16
  else if c = 8 then some .float32
  else if c = 9 then some .float64
  else none

/-- Modelled from the spec: `VisitDtype` — the switch over the dtype tag
that invokes the generic callable once, at the concrete type token for
that tag, and returns that instantiation's result. -/
def visitDtype (d : Dtype) (f : Dtype → R) : R :=
  match d with
  | .bool => f .bool
  | .int8 => f .int8
  | .int16 => f .int16
  | .int32 => f .int32
  | .int64 => f .int64
  | .uint8 => f .uint8
  | .float16 => f .float16
  | .float32 => f .float32
  | .float64 => f .float64

/-- Failure mode of the dispatcher on a tag outside the closed set. -/
inductive DtypeErr where
  | unknownTag
  deriving DecidableEq, Repr

/-- Modelled from the spec: dispatch from a raw runtime tag code; an
unknown code raises a dtype error rather than silently defaulting. -/
def visitDtypeCode (c : Nat) (f : Dtype → R) : Except DtypeErr R :=
  match decodeDtype c with
  | some d => .ok (visitDtype d f)
  | none => .error .unknownTag

/-- Modelled from the spec: `CheckDevicesCompatible` — the arrays of one
operation call must reside on the same device. -/
def checkDevicesCompatible (a out : Arr) : Bool := a.device == out.device

/-- `NativeAsTypeOp::Call` following the source: check device
compatibility, resolve the output dtype then the input dtype via the
visitor, and run `Elementwise` with the cast kernel
`out = static_cast<OutT>(a)`. -/
def asTypeCall (a out : Arr) :
    List (Nat × Int × Int × Val) × Except EwErr (Int → Val) :=
  if checkDevicesCompatible a out then
    visitDtype out.dtype (fun outT =>
      visitDtype a.dtype (fun _inT =>
        Elementwise1 (fun _i v => staticCast outT v) a out))
  else ([], .error .deviceIncompat)

/-- `CopyOp` with kernel body `out = x` as in the source; the surrounding
`Call` shape (device check, dtype visit, `Elementwise`) is generated by
the registration macro, modelled from the spec. -/
def copyOpCall (a out : Arr) :
    List (Nat × Int × Int × Val) × Except EwErr (Int → Val) :=
  if checkDevicesCompatible a out then
    visitDtype out.dtype (fun _t => Elementwise1 (fun _i v => v) a out)
  else ([], .error .deviceIncompat)

/-- Modelled from the spec: allocation of a fresh output for `a` — same
device and shape, requested dtype, contiguous strides, zero offset. -/
def emptyLike (a : Arr) (d : Dtype) : Arr :=
  { device := a.device, dtype := d, shape := a.shape,
    strides := contiguousStrides a.shape, offset := 0, data := fun _ => Val.i 0 }

/-- Modelled from the spec: the astype routine — allocate a contiguous
output of the requested dtype and invoke the cast operation. -/
def astype (a : Arr) (d : Dtype) : Arr :=
  match (asTypeCall a (emptyLike a d)).2 with
  | .ok buf => { emptyLike a d with data := buf }
  | .error _ => emptyLike a d

/-- Modelled from the spec: the copy routine — allocate an output like `a`
and invoke the copy operation. -/
def copyArr (a : Arr) : Arr :=
  match (copyOpCall a (emptyLike a a.dtype)).2 with
  | .ok buf => { emptyLike a a.dtype with data := buf }
  | .error _ => emptyLike a a.dtype

/-! ### Engine and dispatcher lemmas -/

theorem visitDtype_apply {R : Type _} (d : Dtype) (f : Dtype → R) :
    visitDtype d f = f d := by
  cases d <;> rfl

theorem padL_self (x : α) (l : List α) : padL l.length x l = l := by
  simp [padL]

theorem padL_of_length (n : Nat) (x : α) (l : List α) (h : l.length = n) :
    padL n x l = l := by
  simp [padL, h]

theorem contiguousStrides_length (sh : List Nat) :
    (contiguousStrides sh).length = sh.length := by
  induction sh with
  | nil => rfl
  | cons d ds ih => simp [contiguousStrides, ih]

theorem broadcastDim_self (d : Nat) : broadcastDim d d = some d := by
  simp [broadcastDim]

theorem broadcastDims_self (s : List Nat) : broadcastDims s s = some s := by
  induction s with
  | nil => rfl
  | cons d ds ih => simp [broadcastDims, broadcastDim_self, ih]

theorem broadcastShape_self (s : List Nat) : broadcastShape s s = some s := by
  simp [broadcastShape, Nat.max_self]
  rw [padL_self, broadcastDims_self]

theorem ewLoop_trace (step : Nat → Int × Int × Val) (n : Nat) :
    ∀ (i : Nat) (buf : Int → Val),
      (ewLoop step i n buf).1 = (List.range' i n).map (fun j => (j, step j)) := by
  induction n with
  | zero => intro i buf; rfl
  | succ n ih =>
      intro i buf
      rw [List.range'_succ, List.map_cons]
      simp only [ewLoop]
      rw [ih]

theorem ewLoop_buf_untouched (step : Nat → Int × Int × Val) (n : Nat) :
    ∀ (i : Nat) (buf : Int → Val) (o : Int),
      (∀ j, j ∈ List.range' i n → (step j).2.1 ≠ o) →
      (ewLoop step i n buf).2 o = buf o := by
  induction n with
  | zero => intro i buf o _; rfl
  | succ n ih =>
      intro i buf o h
      rw [List.range'_succ] at h
      simp only [ewLoop]
      rw [ih]
      · have hi : (step i).2.1 ≠ o := h i (List.mem_cons_self i _)
        simp only [if_neg (Ne.symm hi)]
      · intro j hj
        exact h j (List.mem_cons_of_mem _ hj)

theorem ewLoop_buf_written (step : Nat → Int × Int × Val) (n : Nat) :
    ∀ (i : Nat) (buf : Int → Val) (m : Nat), m ∈ List.range' i n →
      (∀ j, j ∈ List.range' i n → j ≠ m → (step j).2.1 ≠ (step m).2.1) →
      (ewLoop step i n buf).2 ((step m).2.1) = (step m).2.2 := by
  induction n with
  | zero =>
      intro i buf m hm _
      simp [List.range'] at hm
  | succ n ih =>
      intro i buf m hm hinj
      rw [List.range'_succ] at hm hinj
      simp only [ewLoop]
      rcases List.mem_cons.mp hm with h | hm'
      · subst h
        rw [ewLoop_buf_untouched]
        · simp
        · intro j hj
          have hji : j ≠ m := by
            have := List.mem_range'_1.mp hj
            omega
          exact hinj j (List.mem_cons_of_mem _ hj) hji
      · exact ih (i + 1) _ m hm'
          (fun j hj hne => hinj j (List.mem_cons_of_mem _ hj) hne)

theorem Elementwise1_run (k : Nat → Val → Val) (a out : Arr) (ish : List Nat)
    (h1 : broadcastShape a.shape out.shape = some ish)
    (h2 : padL ish.length 1 out.shape = ish) :
    Elementwise1 k a out =
      ((ewLoop (ewStep k a out ish) 0 (totalSize ish) out.data).1,
        .ok (ewLoop (ewStep k a out ish) 0 (totalSize ish) out.data).2) := by
  simp [Elementwise1, h1, h2]

theorem asTypeCall_eq (a out : Arr) (hdev : a.device = out.device) :
    asTypeCall a out =
      Elementwise1 (fun _i v => staticCast out.dtype v) a out := by
  simp [asTypeCall, checkDevicesCompatible, hdev, visitDtype_apply]

theorem copyOpCall_eq (a out : Arr) (hdev : a.device = out.device) :
    copyOpCall a out = Elementwise1 (fun _i v => v) a out := by
  simp [copyOpCall, checkDevicesCompatible, hdev, visitDtype_apply]

theorem elemIndex_emptyLike (a : Arr) (d : Dtype) (c : List Nat)
    (hc : validCoord a.shape c) :
    elemIndex (emptyLike a d) a.shape.length c = (ravel a.shape c : Int) := by
  show (0 : Int) + physOffset (padL a.shape.length 1 a.shape)
      (padL a.shape.length 0 (contiguousStrides a.shape)) c = _
  rw [padL_self, padL_of_length _ _ _ (contiguousStrides_length a.shape), zero_add]
  exact physOffset_contiguous a.shape c hc

/-- Output offsets of the engine steps over an `emptyLike` output are the
row-major linear indices themselves. -/
theorem ewStep_out_offset (k : Nat → Val → Val) (a : Arr) (d : Dtype)
    (j : Nat) (hj : j < totalSize a.shape) :
    (ewStep k a (emptyLike a d) a.shape j).2.1 = (j : Int) := by
  show elemIndex (emptyLike a d) a.shape.length (unravel a.shape j) = (j : Int)
  rw [elemIndex_emptyLike a d _ (unravel_valid a.shape j hj),
    ravel_unravel a.shape j hj]

/-- The engine run over an `emptyLike` output writes, at the linear index
of each valid coordinate, the kernel applied to the input element read at
that coordinate. -/
theorem ewLoop_emptyLike_read (k : Nat → Val → Val) (a : Arr) (d : Dtype)
    (c : List Nat) (hc : validCoord a.shape c) :
    (ewLoop (ewStep k a (emptyLike a d) a.shape) 0 (totalSize a.shape)
        (fun _ => Val.i 0)).2 (ravel a.shape c) =
      k (ravel a.shape c) (readAt a c) := by
  have hm : ravel a.shape c ∈ List.range' 0 (totalSize a.shape) := by
    rw [List.mem_range'_1]
    exact ⟨Nat.zero_le _, by simpa using ravel_lt a.shape c hc⟩
  have hw := ewLoop_buf_written (ewStep k a (emptyLike a d) a.shape)
    (totalSize a.shape) 0 (fun _ => Val.i 0) (ravel a.shape c) hm ?hinj
  case hinj =>
    intro j hj hne
    have hjlt : j < totalSize a.shape := by
      have := List.mem_range'_1.mp hj
      omega
    rw [ewStep_out_offset k a d j hjlt,
      ewStep_out_offset k a d _ (ravel_lt a.shape c hc)]
    exact fun he => hne (by exact_mod_cast he)
  rw [ewStep_out_offset k a d _ (ravel_lt a.shape c hc)] at hw
  rw [hw]
  show k (ravel a.shape c)
      (a.data (elemIndex a a.shape.length (unravel a.shape (ravel a.shape c)))) =
    k (ravel a.shape c) (readAt a c)
  rw [unravel_ravel a.shape c hc]
  rfl

/-! ### Routine-level facts -/

theorem astype_resolved (a : Arr) (d : Dtype) :
    astype a d = { emptyLike a d with data :=
      (ewLoop (ewStep (fun _i v => staticCast d v) a (emptyLike a d) a.shape) 0
        (totalSize a.shape) (fun _ => Val.i 0)).2 } := by
  have hcall : asTypeCall a (emptyLike a d) =
      ((ewLoop (ewStep (fun _i v => staticCast d v) a (emptyLike a d) a.shape) 0
          (totalSize a.shape) (fun _ => Val.i 0)).1,
        .ok (ewLoop (ewStep (fun _i v => staticCast d v) a (emptyLike a d) a.shape) 0
          (totalSize a.shape) (fun _ => Val.i 0)).2) := by
    rw [asTypeCall_eq a (emptyLike a d) rfl]
    exact Elementwise1_run (fun _i v => staticCast d v) a (emptyLike a d) a.shape
      (broadcastShape_self a.shape) (padL_self 1 a.shape)
  unfold astype
  rw [hcall]

theorem copyArr_resolved (a : Arr) :
    copyArr a = { emptyLike a a.dtype with data :=
      (ewLoop (ewStep (fun _i v => v) a (emptyLike a a.dtype) a.shape) 0
        (totalSize a.shape) (fun _ => Val.i 0)).2 } := by
  have hcall : copyOpCall a (emptyLike a a.dtype) =
      ((ewLoop (ewStep (fun _i v => v) a (emptyLike a a.dtype) a.shape) 0
          (totalSize a.shape) (fun _ => Val.i 0)).1,
        .ok (ewLoop (ewStep (fun _i v => v) a (emptyLike a a.dtype) a.shape) 0
          (totalSize a.shape) (fun _ => Val.i 0)).2) := by
    rw [copyOpCall_eq a (emptyLike a a.dtype) rfl]
    exact Elementwise1_run (fun _i v => v) a (emptyLike a a.dtype) a.shape
      (broadcastShape_self a.shape) (padL_self 1 a.shape)
  unfold copyArr
  rw [hcall]

theorem astype_shape (a : Arr) (d : Dtype) : (astype a d).shape = a.shape := by
  rw [astype_resolved]
  rfl

theorem astype_dtype (a : Arr) (d : Dtype) : (astype a d).dtype = d := by
  rw [astype_resolved]
  rfl

theorem copyArr_shape (a : Arr) : (copyArr a).shape = a.shape := by
  rw [copyArr_resolved]
  rfl

theorem copyArr_dtype (a : Arr) : (copyArr a).dtype = a.dtype := by
  rw [copyArr_resolved]
  rfl

/-- Each logical element of the astype result is the native cast of the
corresponding input element. -/
theorem astype_read (a : Arr) (d : Dtype) (c : List Nat)
    (hc : validCoord a.shape c) :
    readAt (astype a d) c = staticCast d (readAt a c) := by
  rw [astype_resolved]
  show (ewLoop (ewStep (fun _i v => staticCast d v) a (emptyLike a d) a.shape) 0
      (totalSize a.shape) (fun _ => Val.i 0)).2
      (elemIndex (emptyLike a d) a.shape.length c) = _
  rw [elemIndex_emptyLike a d c hc]
  exact ewLoop_emptyLike_read (fun _i v => staticCast d v) a d c hc

/-- Each logical element of the copy result equals the corresponding input
element. -/
theorem copyArr_read (a : Arr) (c : List Nat) (hc : validCoord a.shape c) :
    readAt (copyArr a) c = readAt a c := by
  rw [copyArr_resolved]
  show (ewLoop (ewStep (fun _i v => v) a (emptyLike a a.dtype) a.shape) 0
      (totalSize a.shape) (fun _ => Val.i 0)).2
      (elemIndex (emptyLike a a.dtype) a.shape.length c) = _
  rw [elemIndex_emptyLike a a.dtype c hc]
  exact ewLoop_emptyLike_read (fun _i v => v) a a.dtype c hc

theorem Elementwise1_trace_indices (k : Nat → Val → Val) (a out : Arr)
    (ish : List Nat)
    (h1 : broadcastShape a.shape out.shape = some ish)
    (h2 : padL ish.length 1 out.shape = ish) :
    (Elementwise1 k a out).1.map (fun e => e.1) = List.range (totalSize ish) := by
  rw [Elementwise1_run k a out ish h1 h2]
  show (ewLoop (ewStep k a out ish) 0 (totalSize ish) out.data).1.map
      (fun e => e.1) = _
  rw [ewLoop_trace, List.map_map, List.range_eq_range']
  have hcomp : ((fun (e : Nat × Int × Int × Val) => e.1) ∘
      fun j => (j, ewStep k a out ish j)) = id := by
    funext j
    rfl
  rw [hcomp, List.map_id]

theorem wrapSigned_bounds (k : Nat) (x : Int) :
    -(2 ^ k) ≤ wrapSigned (k + 1) x ∧ wrapSigned (k + 1) x < 2 ^ k := by
  unfold wrapSigned
  have hpow : (2 : Int) ^ (k + 1) = 2 ^ k + 2 ^ k := by ring
  have hk : (0 : Int) < 2 ^ k := by positivity
  have hpos : (0 : Int) < 2 ^ (k + 1) := by positivity
  have h0 : 0 ≤ x % (2 ^ (k + 1) : Int) := Int.emod_nonneg x (by omega)
  have h1 : x % (2 ^ (k + 1) : Int) < 2 ^ (k + 1) := Int.emod_lt_of_pos x hpos
  simp only [Nat.add_sub_cancel]
  by_cases hc : x % (2 ^ (k + 1) : Int) < 2 ^ k
  · rw [if_pos hc]; omega
  · rw [if_neg hc]; omega

/-! ### Concrete example arrays used by witnesses -/

/-- Two-element int32 row with distinguishable values. -/
def c1In : Arr :=
  { device := 0, dtype := .int32, shape := [2], strides := [1], offset := 0,
    data := fun j => Val.i (300 + j) }

/-- Two-element int8 output buffer. -/
def c1Out : Arr :=
  { device := 0, dtype := .int8, shape := [2], strides := [1], offset := 0,
    data := fun _ => Val.i 0 }

/-- A 2x3 array on device 0. -/
def c3In : Arr :=
  { device := 0, dtype := .int32, shape := [2, 3], strides := [3, 1],
    offset := 0, data := fun _ => Val.i 0 }

/-- A 3x2 array of a different dtype on device 1. -/
def c3Out : Arr :=
  { device := 1, dtype := .float64, shape := [3, 2], strides := [2, 1],
    offset := 0, data := fun _ => Val.i 0 }

/-- A one-element int32 array holding 5. -/
def c4A : Arr :=
  { device := 0, dtype := .int32, shape := [1], strides := [1], offset := 0,
    data := fun _ => Val.i 5 }

/-- A 2x2 int32 array with distinguishable values. -/
def c5A : Arr :=
  { device := 0, dtype := .int32, shape := [2, 2], strides := [2, 1],
    offset := 0, data := fun j => Val.i (10 * j) }

/-- A 1x3 input row, broadcast against a 4x3 output. -/
def bcIn : Arr :=
  { device := 0, dtype := .int32, shape := [1, 3], strides := [3, 1],
    offset := 0, data := fun j => Val.i (100 + j) }

/-- A 4x3 contiguous output buffer. -/
def bcOut : Arr :=
  { device := 0, dtype := .int32, shape := [4, 3], strides := [3, 1],
    offset := 0, data := fun _ => Val.i 0 }

/-- An int8 array whose buffer holds 7 everywhere. -/
def c10In : Arr :=
  { device := 0, dtype := .int8, shape := [2], strides := [1], offset := 0,
    data := fun _ => Val.i 7 }

/-- An int8 output of the same shape. -/
def c10Out : Arr :=
  { device := 0, dtype := .int8, shape := [2], strides := [1], offset := 0,
    data := fun _ => Val.i 0 }

/-! ### The claims -/

/-- C1: for every accepted input/output pair (device-compatible,
broadcast-compatible, non-broadcast output), every write of the cast
operation carries exactly `static_cast<OutT>(in)` of the input element it
read, with `OutT` the output's resolved dtype — the native conversion, no
custom rounding or saturation. -/
theorem C1_cast_writes_native_cast (a out : Arr) (ish : List Nat)
    (hdev : a.device = out.device)
    (h1 : broadcastShape a.shape out.shape = some ish)
    (h2 : padL ish.length 1 out.shape = ish) :
    (asTypeCall a out).1 =
      (List.range (totalSize ish)).map (fun j =>
        (j, elemIndex a ish.length (unravel ish j),
          elemIndex out ish.length (unravel ish j),
          staticCast out.dtype
            (a.data (elemIndex a ish.length (unravel ish j))))) := by
  rw [asTypeCall_eq a out hdev,
    Elementwise1_run (fun _i v => staticCast out.dtype v) a out ish h1 h2,
    List.range_eq_range']
  show (ewLoop (ewStep (fun _i v => staticCast out.dtype v) a out ish) 0
      (totalSize ish) out.data).1 = _
  rw [ewLoop_trace]
  rfl

theorem C1_witness :
    c1In.device = c1Out.device ∧
    broadcastShape c1In.shape c1Out.shape = some [2] ∧
    (asTypeCall c1In c1Out).1 =
      (List.range (totalSize [2])).map (fun j =>
        (j, elemIndex c1In 1 (unravel [2] j),
          elemIndex c1Out 1 (unravel [2] j),
          staticCast c1Out.dtype
            (c1In.data (elemIndex c1In 1 (unravel [2] j))))) :=
  ⟨rfl, by decide,
    C1_cast_writes_native_cast c1In c1Out [2] rfl (by decide) (by decide)⟩

/-- C2: every logical element of the iteration shape is visited exactly
once, in deterministic row-major order over the linear indices
`[0, total)`, and the (eager, synchronous) call completes with an `ok`
result covering all elements. -/
theorem C2_visits_each_element_once (k : Nat → Val → Val) (a out : Arr)
    (ish : List Nat)
    (h1 : broadcastShape a.shape out.shape = some ish)
    (h2 : padL ish.length 1 out.shape = ish) :
    (Elementwise1 k a out).1.map (fun e => e.1) = List.range (totalSize ish) ∧
    (∃ buf, (Elementwise1 k a out).2 = Except.ok buf) ∧
    ∀ c, validCoord ish c →
      ((Elementwise1 k a out).1.map (fun e => e.1)).count (ravel ish c) = 1 := by
  have ht := Elementwise1_trace_indices k a out ish h1 h2
  refine ⟨ht, ⟨_, by rw [Elementwise1_run k a out ish h1 h2]⟩, ?_⟩
  intro c hc
  rw [ht]
  exact List.count_eq_one_of_mem (List.nodup_range _)
    (List.mem_range.mpr (ravel_lt ish c hc))

theorem C2_witness :
    broadcastShape bcIn.shape bcOut.shape = some [4, 3] ∧
    (Elementwise1 (fun _i v => v) bcIn bcOut).1.map (fun e => e.1) =
      List.range (totalSize [4, 3]) :=
  ⟨by decide,
    (C2_visits_each_element_once (fun _i v => v) bcIn bcOut [4, 3]
      (by decide) (by decide)).1⟩

/-- C3: the device-compatibility check runs first: with incompatible
devices the cast call fails with the distinct device-incompatibility
error — never a shape or dtype error — and its write trace is empty, so no
element of the output is written, whatever the shapes and dtypes are. -/
theorem C3_device_check_before_dispatch (a out : Arr)
    (hne : a.device ≠ out.device) :
    asTypeCall a out = ([], Except.error EwErr.deviceIncompat) := by
  have hfalse : checkDevicesCompatible a out = false := by
    unfold checkDevicesCompatible
    exact beq_eq_false_iff_ne.mpr hne
  simp [asTypeCall, hfalse]

theorem C3_witness :
    c3In.device ≠ c3Out.device ∧
    asTypeCall c3In c3Out = ([], Except.error EwErr.deviceIncompat) :=
  ⟨by decide, C3_device_check_before_dispatch c3In c3Out (by decide)⟩

/-- C4: casting an array to `OutT` and back to its own dtype is the
identity on every logical element whenever the values are losslessly
representable in `OutT`; out-of-range values (int64 → int32 → int64) are
not an error: the loss is exactly the native wrap-around truncation, so
the round trip is not the identity there. -/
theorem C4_roundtrip_lossless_or_truncates :
    (∀ (a : Arr) (dOut : Dtype),
      (∀ c, validCoord a.shape c → fits a.dtype (readAt a c) = true) →
      (∀ c, validCoord a.shape c → losslessIn dOut (readAt a c) = true) →
      ∀ c, validCoord a.shape c →
        readAt (astype (astype a dOut) a.dtype) c = readAt a c) ∧
    (∀ n : Int,
      staticCast .int64 (staticCast .int32 (.i n)) = .i (wrapSigned 32 n)) ∧
    staticCast .int64 (staticCast .int32 (.i (2 ^ 31))) ≠ .i (2 ^ 31) := by
  refine ⟨?_, ?_, by decide⟩
  · intro a dOut hf hl c hc
    have hc' : validCoord (astype a dOut).shape c := by
      rw [astype_shape]; exact hc
    calc readAt (astype (astype a dOut) a.dtype) c
        = staticCast a.dtype (readAt (astype a dOut) c) :=
          astype_read (astype a dOut) a.dtype c hc'
      _ = staticCast a.dtype (staticCast dOut (readAt a c)) := by
          rw [astype_read a dOut c hc]
      _ = readAt a c := lossless_roundtrip a.dtype dOut _ (hf c hc) (hl c hc)
  · intro n
    have hb : -(2 ^ 31) ≤ wrapSigned 32 n ∧ wrapSigned 32 n < 2 ^ 31 :=
      wrapSigned_bounds 31 n
    have hle : (2 : Int) ^ 31 ≤ 2 ^ 63 := by norm_num
    show Val.i (wrapSigned 64 (wrapSigned 32 n)) = Val.i (wrapSigned 32 n)
    exact congrArg Val.i (wrapSigned_eq_self 63 _ (by omega) (by omega))

theorem C4_witness :
    validCoord c4A.shape [0] ∧
    readAt (astype (astype c4A .float64) c4A.dtype) [0] = readAt c4A [0] :=
  ⟨by decide,
    C4_roundtrip_lossless_or_truncates.1 c4A .float64
      (fun _c _hc => rfl) (fun _c _hc => rfl) [0] (by decide)⟩

/-- C5: copying any array yields one of the same shape and dtype whose
every logical element equals the input's, the kernel being the bare write
`out = in`. -/
theorem C5_copy_preserves (a : Arr) :
    (copyArr a).shape = a.shape ∧ (copyArr a).dtype = a.dtype ∧
    ∀ c, validCoord a.shape c → readAt (copyArr a) c = readAt a c :=
  ⟨copyArr_shape a, copyArr_dtype a, fun c hc => copyArr_read a c hc⟩

theorem C5_witness :
    validCoord c5A.shape [1, 1] ∧
    readAt (copyArr c5A) [1, 1] = readAt c5A [1, 1] :=
  ⟨by decide, (C5_copy_preserves c5A).2.2 [1, 1] (by decide)⟩

/-- C6: the engine detects every error before iteration begins: each
invocation either fails with an empty write trace (zero elements written —
in particular for non-broadcastable shapes such as [2,3] against [3,2]) or
succeeds having written every element of the iteration shape; no partial
write is observable. -/
theorem C6_zero_or_all_writes :
    (∀ (k : Nat → Val → Val) (a out : Arr),
      (∃ e, Elementwise1 k a out = ([], Except.error e)) ∨
      (∃ ish buf, broadcastShape a.shape out.shape = some ish ∧
        (Elementwise1 k a out).2 = Except.ok buf ∧
        (Elementwise1 k a out).1.map (fun e => e.1) =
          List.range (totalSize ish))) ∧
    (∀ (k : Nat → Val → Val) (a out : Arr),
      a.shape = [2, 3] → out.shape = [3, 2] →
      Elementwise1 k a out = ([], Except.error EwErr.shapeMismatch)) := by
  constructor
  · intro k a out
    rcases hbs : broadcastShape a.shape out.shape with _ | ish
    · exact Or.inl ⟨.shapeMismatch, by simp [Elementwise1, hbs]⟩
    · by_cases h2 : padL ish.length 1 out.shape = ish
      · refine Or.inr ⟨ish,
          (ewLoop (ewStep k a out ish) 0 (totalSize ish) out.data).2, rfl,
          ?_, Elementwise1_trace_indices k a out ish hbs h2⟩
        rw [Elementwise1_run k a out ish hbs h2]
      · exact Or.inl ⟨.shapeMismatch, by simp [Elementwise1, hbs, h2]⟩
  · intro k a out ha ho
    have hn : broadcastShape a.shape out.shape = none := by
      rw [ha, ho]; decide
    simp [Elementwise1, hn]

theorem C6_witness :
    c3In.shape = [2, 3] ∧ c3Out.shape = [3, 2] ∧
    Elementwise1 (fun _i v => v) c3In c3Out =
      ([], Except.error EwErr.shapeMismatch) :=
  ⟨rfl, rfl, C6_zero_or_all_writes.2 (fun _i v => v) c3In c3Out rfl rfl⟩

/-- C7: the dtype visitor invokes its callable exactly once, at the
concrete token of the visited tag, and returns that result; a tag code
outside the closed set raises a dtype error rather than silently
defaulting; and the nested two-level visit of the cast operation resolves
exactly one concrete (input, output) token pair. -/
theorem C7_visitor_dispatch :
    (∀ (R : Type) (d : Dtype) (f : Dtype → R), visitDtype d f = f d) ∧
    (∀ (R : Type) (c : Nat) (d : Dtype) (f : Dtype → R),
      decodeDtype c = some d → visitDtypeCode c f = Except.ok (f d)) ∧
    (∀ (R : Type) (c : Nat) (f : Dtype → R),
      decodeDtype c = none →
      visitDtypeCode c f = Except.error DtypeErr.unknownTag) ∧
    (∀ (R : Type) (o i : Dtype) (g : Dtype → Dtype → R),
      visitDtype o (fun ot => visitDtype i (fun it => g it ot)) = g i o) := by
  refine ⟨fun R d f => visitDtype_apply d f, ?_, ?_, ?_⟩
  · intro R c d f h
    simp [visitDtypeCode, h, visitDtype_apply]
  · intro R c f h
    simp [visitDtypeCode, h]
  · intro R o i g
    rw [visitDtype_apply, visitDtype_apply]

theorem C7_witness :
    decodeDtype 4 = some Dtype.int32 ∧ decodeDtype 12 = none ∧
    visitDtypeCode 4 (fun t => t) = Except.ok Dtype.int32 ∧
    visitDtypeCode 12 (fun t => t) = Except.error DtypeErr.unknownTag :=
  ⟨by decide, by decide,
    C7_visitor_dispatch.2.1 Dtype 4 .int32 (fun t => t) (by decide),
    C7_visitor_dispatch.2.2.1 Dtype 12 (fun t => t) (by decide)⟩

/-- C8: under broadcasting, the engine step at the linear index of each
iteration coordinate reads the input at that coordinate mapped through the
input's own shape — every size-1 dimension contributing index 0 — and
writes the kernel result at the output's offset for that coordinate; in
the concrete [1,3]-into-[4,3] instance the same input row (offsets 0,1,2)
is read for each of the four output rows while twelve distinct output
offsets are written, each exactly once. -/
theorem C8_broadcast_reads_writes :
    (∀ (k : Nat → Val → Val) (a out : Arr) (ish : List Nat),
      broadcastShape a.shape out.shape = some ish →
      padL ish.length 1 out.shape = ish →
      ∀ c, validCoord ish c →
      (Elementwise1 k a out).1[ravel ish c]? =
        some (ravel ish c,
          a.offset + physOffset (padL ish.length 1 a.shape)
            (padL ish.length 0 a.strides) c,
          out.offset + physOffset (padL ish.length 1 out.shape)
            (padL ish.length 0 out.strides) c,
          k (ravel ish c)
            (a.data (a.offset + physOffset (padL ish.length 1 a.shape)
              (padL ish.length 0 a.strides) c)))) ∧
    (Elementwise1 (fun _i v => v) bcIn bcOut).1.map (fun e => e.2.1) =
      [0, 1, 2, 0, 1, 2, 0, 1, 2, 0, 1, 2] ∧
    (Elementwise1 (fun _i v => v) bcIn bcOut).1.map (fun e => e.2.2.1) =
      [0, 1, 2, 3, 4, 5, 6, 7, 8, 9, 10, 11] ∧
    (Elementwise1 (fun _i v => v) bcIn bcOut).1.map (fun e => e.2.2.2) =
      [Val.i 100, Val.i 101, Val.i 102, Val.i 100, Val.i 101, Val.i 102,
        Val.i 100, Val.i 101, Val.i 102, Val.i 100, Val.i 101, Val.i 102] := by
  refine ⟨?_, by decide, by decide, by decide⟩
  intro k a out ish h1 h2 c hc
  have hm : ravel ish c < totalSize ish := ravel_lt ish c hc
  rw [Elementwise1_run k a out ish h1 h2]
  show (ewLoop (ewStep k a out ish) 0 (totalSize ish) out.data).1[ravel ish c]? = _
  rw [ewLoop_trace, List.getElem?_map, List.getElem?_range' 0 1 hm]
  have hstep : ewStep k a out ish (0 + 1 * ravel ish c) =
      (elemIndex a ish.length c, elemIndex out ish.length c,
        k (ravel ish c) (a.data (elemIndex a ish.length c))) := by
    simp only [Nat.zero_add, Nat.one_mul, ewStep]
    rw [unravel_ravel ish c hc]
  rw [Option.map_some', hstep]
  simp only [Nat.zero_add, Nat.one_mul]
  rfl

theorem C8_witness :
    validCoord [4, 3] [2, 1] ∧
    (Elementwise1 (fun _i v => v) bcIn bcOut).1[ravel [4, 3] [2, 1]]? =
      some (ravel [4, 3] [2, 1],
        bcIn.offset + physOffset (padL 2 1 bcIn.shape) (padL 2 0 bcIn.strides)
          [2, 1],
        bcOut.offset + physOffset (padL 2 1 bcOut.shape)
          (padL 2 0 bcOut.strides) [2, 1],
        bcIn.data (bcIn.offset + physOffset (padL 2 1 bcIn.shape)
          (padL 2 0 bcIn.strides) [2, 1])) :=
  ⟨by decide,
    C8_broadcast_reads_writes.1 (fun _i v => v) bcIn bcOut [4, 3]
      (by decide) (by decide) [2, 1] (by decide)⟩

/-- C10: on a well-typed input buffer, casting to the same dtype is
observationally identical to the copy operation: the two calls produce the
same write trace and the same result, because `static_cast<T>(x) = x` for
every well-typed value of `T`. -/
theorem C10_same_dtype_astype_is_copy (a out : Arr)
    (hdt : out.dtype = a.dtype)
    (hWT : ∀ j : Int, fits a.dtype (a.data j) = true) :
    asTypeCall a out = copyOpCall a out := by
  unfold asTypeCall copyOpCall
  by_cases hdev : checkDevicesCompatible a out
  · simp only [hdev, if_true, visitDtype_apply]
    have hk : ewStep (fun _i v => staticCast out.dtype v) a out =
        ewStep (fun _i v => v) a out := by
      funext ish i
      simp only [ewStep]
      rw [hdt, fits_staticCast_self a.dtype _ (hWT _)]
    simp only [Elementwise1, hk]
  · simp [hdev]

theorem C10_witness :
    c10Out.dtype = c10In.dtype ∧
    asTypeCall c10In c10Out = copyOpCall c10In c10Out :=
  ⟨rfl, C10_same_dtype_astype_is_copy c10In c10Out rfl (fun _j => rfl)⟩

end Chainer
